import Mathlib

/-!
Verification of the composite-container layer (`NestedComponent`) of a
form-rendering engine.  The JavaScript source is shallowly embedded:
JS values that matter to the claims are modelled by `JSVal`, the mutable
`flags` object by explicit state passing of a `Flags` record, children
(external collaborators per the leaf contract) by records of pure result
functions, and side effects (DOM attachment, callbacks, change events) by
explicit event traces returned alongside results.
-/

/-- A JavaScript value, restricted to the shapes the container code
manipulates: `undefined`, `null`, booleans, (integer) numbers, strings and
plain objects (association lists of fields). -/
inductive JSVal where
  | undefined
  | null
  | bool (b : Bool)
  | num (n : Int)
  | str (s : String)
  | obj (fields : List (String × JSVal))

/-- JS truthiness for the modelled values (`undefined`, `null`, `false`,
`0` and `""` are falsy; every object is truthy). -/
def truthy : JSVal → Bool
  | .undefined => false
  | .null => false
  | .bool b => b
  | .num n => n != 0
  | .str s => s != ""
  | .obj _ => true

/-- The JS strict test `v === false`. -/
def isFalseVal : JSVal → Bool
  | .bool false => true
  | _ => false

/-- `_.get(value, key)` for a plain (non-dotted) key: field lookup on an
object, `undefined` on a missing field or a non-object. -/
def jsGet : JSVal → String → JSVal
  | .obj fields, k => ((fields.find? (fun p => p.1 == k)).map (·.2)).getD .undefined
  | _, _ => .undefined

/-- The two JS "absent" results a function can fall back to: the implicit
`undefined` of a body that falls off the end, and an explicit `null`. -/
inductive JSRet where
  | undefined
  | null
deriving DecidableEq, Repr

/-- Unsigned 32-bit reduction used by JS `ToInt32`. -/
def toUint32 (n : Int) : Nat := (n % 4294967296).toNat

/-- Reinterpret an unsigned 32-bit value as a signed 32-bit integer. -/
def ofUint32 (u : Nat) : Int :=
  if u % 4294967296 < 2147483648 then (u % 4294967296 : Int)
  else (u % 4294967296 : Int) - 4294967296

/-- JS `ToInt32` on the modelled values.  Booleans convert through 1/0;
`undefined`/`null` and the non-numeric shapes convert to 0 (via `NaN` for
`undefined`; none of the latter reach a bitwise operator in the embedded
code). -/
def toInt32 : JSVal → Int
  | .bool b => if b then 1 else 0
  | .num n => ofUint32 (toUint32 n)
  | _ => 0

/-- JS `x | y` on 32-bit converted operands. -/
def jsBitOr (a b : JSVal) : Int :=
  ofUint32 (Nat.lor (toUint32 (toInt32 a)) (toUint32 (toInt32 b)))

/-- JS `x & y` on 32-bit converted operands. -/
def jsBitAnd (a b : JSVal) : Int :=
  ofUint32 (Nat.land (toUint32 (toInt32 a)) (toUint32 (toInt32 b)))

/-- The `flags` object threaded through value propagation.  Only the
fields the embedded code reads or writes are modelled. -/
structure Flags where
  noValidate : Bool := false
  noCheck : Bool := false
  noUpdateEvent : Bool := false
deriving DecidableEq, Repr

namespace NC

/-- A direct child of the container, as seen through the external leaf
contract (§6 of the spec): identity, schema key and type, and pure
result functions for each contract method the container invokes.  `dirty`
is passed as `Option Bool` because `checkData` calls `checkValidity(data)`
with the second argument absent (`undefined`). -/
structure Child where
  id : Nat
  key : String
  type : String
  hasValue : JSVal → Bool
  defaultValue : JSVal
  setValueR : JSVal → Flags → Bool
  checkValidityR : JSVal → Option Bool → Bool
  isValidR : JSVal → Bool → Bool
  calculateValueR : JSVal → Flags → Bool
  updateValueR : Flags → Bool

/-- The container itself: its ordered children, the result of the external
condition evaluator on given submission data, and the base-class results
(`super.checkValidity` / `super.isValid`) it folds in. -/
structure Container where
  components : List Child
  condition : JSVal → Bool
  ownCheckValidity : JSVal → Bool → Bool
  ownIsValid : JSVal → Bool → Bool

/-- Record of one `child.setValue(v, flags)` invocation made by the
container, with the value and flags the child received and the `changed`
result it returned. -/
structure SVCall where
  childId : Nat
  value : JSVal
  flags : Flags
  result : Bool

/-- Modelled from the spec: the base-class `getFlags` normalization is not
part of the container source; per the spec's `setValue(value, flags)`
contract the caller's flags object itself is what is threaded through to
the children, so with an explicit flags argument `getFlags` yields that
same object. -/
def getFlags (flags : Flags) : Flags := flags

/-- `setNestedValue(component, value, flags, changed)` (source lines
468-483).  Returns the value the JS function returns, the flags object's
state after the call (the `flags.noValidate = true` write mutates the
shared object), and a record of the `component.setValue` call when one was
made (`none` for the button branch, which returns `false` outright). -/
def setNestedValue (component : Child) (value : JSVal) (flags : Flags) (changed : Bool) :
    Bool × Flags × Option SVCall :=
  if component.type == "button" then
    (false, flags, none)
  else if component.type == "components" then
    let r := component.setValueR value flags
    (r || changed, flags, some ⟨component.id, value, flags, r⟩)
  else if truthy value && component.hasValue value then
    let sub := jsGet value component.key
    let r := component.setValueR sub flags
    (r || changed, flags, some ⟨component.id, sub, flags, r⟩)
  else
    let flags' := { flags with noValidate := true }
    let r := component.setValueR component.defaultValue flags'
    (r || changed, flags', some ⟨component.id, component.defaultValue, flags', r⟩)

/-- The `reduce` loop of `setValue` (source lines 490-492): children in
collection order, the accumulator threaded through `setNestedValue`,
together with one `(childId, call?)` record per child processed. -/
def setValueGo (value : JSVal) : List Child → Bool → Flags →
    Bool × Flags × List (Nat × Option SVCall)
  | [], changed, flags => (changed, flags, [])
  | comp :: rest, changed, flags =>
    let step := setNestedValue comp value flags changed
    let tail := setValueGo value rest step.1 step.2.1
    (tail.1, tail.2.1, (comp.id, step.2.2) :: tail.2.2)

/-- `setValue(value, flags)` (source lines 485-493): `false` without any
child call when `value` is falsy, otherwise the reduce over all children
starting from `changed = false` with the normalized flags. -/
def setValue (c : Container) (value : JSVal) (flags : Flags) :
    Bool × Flags × List (Nat × Option SVCall) :=
  if truthy value = false then (false, flags, [])
  else setValueGo value c.components false (getFlags flags)

/-- `checkValidity(data, dirty)` (source lines 397-407).  Returned along
with the result: whether `setCustomValidity('')` ran, and the ids of the
children whose `checkValidity` was invoked, in invocation order.  When the
external condition evaluator rejects the container, the message is cleared
and `true` is returned with no child invoked; otherwise the reduce starts
from `super.checkValidity(data, dirty)` and folds in each child with
`comp.checkValidity(data, dirty) && check` (the child call is the left
operand, so it is evaluated for every child). -/
def checkValidity (c : Container) (data : JSVal) (dirty : Bool) :
    Bool × Bool × List Nat :=
  if c.condition data = false then
    (true, true, [])
  else
    let folded := c.components.foldl
      (fun acc comp => (comp.checkValidityR data (some dirty) && acc.1, acc.2 ++ [comp.id]))
      (c.ownCheckValidity data dirty, [])
    (folded.1, false, folded.2)

/-- `isValid(data, dirty)` (source lines 390-395): reduce over the
children starting from `super.isValid(data, dirty)`, folding with
`comp.isValid(data, dirty) && valid`.  Also returns the ids of the
children invoked, in order. -/
def isValid (c : Container) (data : JSVal) (dirty : Bool) : Bool × List Nat :=
  c.components.foldl
    (fun acc comp => (comp.isValidR data dirty && acc.1, acc.2 ++ [comp.id]))
    (c.ownIsValid data dirty, [])

/-- `updateValue(flags)` (source lines 284-286): OR-reduce of the
children's `updateValue(flags)` results starting from `false`. -/
def updateValue (c : Container) (flags : Flags) : Bool :=
  c.components.foldl (fun changed comp => comp.updateValueR flags || changed) false

/-- Observable steps of one `checkData` run, in order: a child's
`calculateValue`, a child's `checkConditions`, a child's `checkValidity`,
and the final `triggerChange(flags)`. -/
inductive CDEvent where
  | calc (childId : Nat)
  | conds (childId : Nat)
  | validity (childId : Nat)
  | trigger (flags : Flags)
deriving DecidableEq, Repr

/-- The `forEach` body of `checkData` (source lines 312-320).  The JS
variables `changed` and `valid` hold JS values: `changed |= ...` and
`valid &= ...` are bitwise operators, so after the first child both become
numbers.  `comp.checkValidity(data)` passes no `dirty` argument. -/
def checkDataGo (data : JSVal) (flags : Flags) :
    List Child → JSVal → JSVal → List CDEvent → JSVal × JSVal × List CDEvent
  | [], changed, valid, evs => (changed, valid, evs)
  | comp :: rest, changed, valid, evs =>
    let changed' : JSVal := .num (jsBitOr changed
      (.bool (comp.calculateValueR data { noUpdateEvent := true })))
    let evs := evs ++ [CDEvent.calc comp.id, CDEvent.conds comp.id]
    if flags.noValidate then
      checkDataGo data flags rest changed' valid evs
    else
      let valid' : JSVal := .num (jsBitAnd valid
        (.bool (comp.checkValidityR data none)))
      checkDataGo data flags rest changed' valid' (evs ++ [CDEvent.validity comp.id])

/-- `checkData(data, flags)` (source lines 299-329): `undefined` with no
effect under `flags.noCheck`; otherwise `updateValue({noUpdateEvent:true})`
seeds `changed`, the per-child loop runs, `triggerChange(flags)` fires
exactly when the accumulated `changed` is truthy, and the accumulated
`valid` is returned. -/
def checkData (c : Container) (data : JSVal) (flags : Flags) :
    JSVal × List CDEvent :=
  if flags.noCheck then (.undefined, [])
  else
    let changed0 : JSVal := .bool (updateValue c { noUpdateEvent := true })
    let run := checkDataGo data flags c.components changed0 (.bool true) []
    let evs := if truthy run.1 then run.2.2 ++ [CDEvent.trigger flags] else run.2.2
    (run.2.1, evs)

end NC

namespace Tr

/-- The component tree for the traversal primitives: a node is a leaf
(no `everyComponent` of its own) or a container with an ordered child
collection.  `id` is the instance id, `key` the schema key
(`component.component.key`). -/
inductive CompTree where
  | leaf (id : Nat) (key : String)
  | container (id : Nat) (key : String) (children : List CompTree)

/-- Instance id of a node. -/
def CompTree.cid : CompTree → Nat
  | .leaf i _ => i
  | .container i _ _ => i

/-- Schema key of a node. -/
def CompTree.ckey : CompTree → String
  | .leaf _ k => k
  | .container _ k _ => k

/-- The owned child collection (`getComponents()`); empty on a leaf,
which also has no `everyComponent` method. -/
def CompTree.children : CompTree → List CompTree
  | .leaf _ _ => []
  | .container _ _ cs => cs

/-- Whether `typeof component.everyComponent === 'function'`. -/
def CompTree.canTraverse : CompTree → Bool
  | .leaf _ _ => false
  | .container _ _ _ => true

/-- The `_.each` loop of `eachComponent(fn)` (source lines 81-87): direct
children only, in collection order, passing `(component, index)`; the
wrapping lambda returns `false` — stopping `_.each` — exactly when `fn`
returned the value `false`.  The result is the trace of components `fn`
was called on, in order. -/
def eachTraceGo (fn : CompTree → Nat → JSVal) : List CompTree → Nat → List CompTree
  | [], _ => []
  | c :: rest, i =>
    if isFalseVal (fn c i) then [c]
    else c :: eachTraceGo fn rest (i + 1)

/-- `eachComponent(fn)` called on a container whose collection is `l`. -/
def eachTrace (fn : CompTree → Nat → JSVal) (l : List CompTree) : List CompTree :=
  eachTraceGo fn l 0

/-- The `_.each` loop of `everyComponent(fn)` (source lines 61-74) run on
the sibling collection `siblings`, currently at the suffix given by the
list argument with `i` the index of its head.  The visitor receives
`(component, components, index)`.  If it returns exactly `false`, the
lambda returns `false` and `_.each` stops at this level.  Otherwise, when
the component has an `everyComponent` method the code recurses into it —
but the recursive `everyComponent` call itself returns `undefined` (its
body has no return statement), so the `=== false` test on it never
succeeds and the loop always continues to the next sibling.  The result is
the trace of components visited (passed to `fn`), in order. -/
def everyTraceGo (fn : CompTree → List CompTree → Nat → JSVal)
    (siblings : List CompTree) : List CompTree → Nat → List CompTree
  | [], _ => []
  | c :: rest, i =>
    if isFalseVal (fn c siblings i) then [c]
    else
      match c with
      | .leaf a k => CompTree.leaf a k :: everyTraceGo fn siblings rest (i + 1)
      | .container a k cs =>
        CompTree.container a k cs ::
          (everyTraceGo fn cs cs 0 ++ everyTraceGo fn siblings rest (i + 1))
termination_by l _ => sizeOf l
decreasing_by all_goals simp_wf <;> omega

/-- `everyComponent(fn)` called on a container whose collection is `l`. -/
def everyTrace (fn : CompTree → List CompTree → Nat → JSVal) (l : List CompTree) :
    List CompTree :=
  everyTraceGo fn l l 0

/-- Full depth-first pre-order flattening of a collection: each node
followed by the flattening of its children, siblings in order.  This is
the reference ordering `everyComponent` realizes when no visitor return
stops it. -/
def preorderGo : List CompTree → List CompTree
  | [] => []
  | c :: rest =>
    match c with
    | .leaf a k => CompTree.leaf a k :: preorderGo rest
    | .container a k cs =>
      CompTree.container a k cs :: (preorderGo cs ++ preorderGo rest)
termination_by l => sizeOf l
decreasing_by all_goals simp_wf <;> omega

/-- A match handed to the `getComponent`/`getComponentById` callback:
the matching component together with the sibling collection
(`components`) it was found in. -/
structure Found where
  comp : CompTree
  siblings : List CompTree

/-- The `everyComponent` search closure shared by `getComponent` (match on
schema `key`) and `getComponentById` (match on instance `id`), over an
arbitrary match predicate `p` (source lines 97-109 and 118-130).  State:
`acc` is the closure's `comp` variable (last assigned match), and the
returned list records every invocation of the inner callback `fn` — on a
match the closure assigns `comp`, invokes `fn(component, components)` and
returns `false`, stopping `_.each` at the current level only (the
recursive `everyComponent` returns `undefined`, so an enclosing level's
loop continues and can observe further matches). -/
def getCompGo (p : CompTree → Bool) (siblings : List CompTree) :
    List CompTree → Option Found → Option Found × List Found
  | [], acc => (acc, [])
  | c :: rest, acc =>
    if p c then
      (some ⟨c, siblings⟩, [⟨c, siblings⟩])
    else
      match c with
      | .leaf _ _ =>
        getCompGo p siblings rest acc
      | .container _ _ cs =>
        let inner := getCompGo p cs cs acc
        let outer := getCompGo p siblings rest inner.1
        (outer.1, inner.2 ++ outer.2)
termination_by l _ => sizeOf l
decreasing_by all_goals simp_wf <;> omega

/-- `getComponent(key, fn)` / `getComponentById(id, fn)` over collection
`l`: the returned component (`null` as `none`) and the callback
invocations made. -/
def getComp (p : CompTree → Bool) (l : List CompTree) : Option Found × List Found :=
  getCompGo p l l none

/-- One observable callback effect of `removeComponentByKey`/`ById`: the
removal callback fired with a found `(component, components)` pair — the
code first runs `removeComponent(component, components)` then the user's
`fn(component, components)` — or the user's `fn(null)` on a miss. -/
inductive RemEvent where
  | removed (f : Found)
  | missNull

/-- Common body of `removeComponentByKey` (source lines 224-237) and
`removeComponentById` (source lines 246-259): deep search with a callback
that removes each match; if the search result is falsy, call `fn(null)`
and return `null` explicitly — otherwise the function body ends without a
return statement, producing `undefined`. -/
def removeComp (p : CompTree → Bool) (l : List CompTree) : JSRet × List RemEvent :=
  let search := getComp p l
  let evs := search.2.map RemEvent.removed
  match search.1 with
  | some _ => (JSRet.undefined, evs)
  | none => (JSRet.null, evs ++ [RemEvent.missNull])

/-- `removeComponentByKey(key, fn)`: match on the schema `key`. -/
def removeComponentByKey (l : List CompTree) (key : String) : JSRet × List RemEvent :=
  removeComp (fun c => c.ckey == key) l

/-- `removeComponentById(id, fn)`: match on the instance `id`. -/
def removeComponentById (l : List CompTree) (i : Nat) : JSRet × List RemEvent :=
  removeComp (fun c => c.cid == i) l

end Tr

namespace AC

/-- The part of a schema node `createComponent`/`addComponent` reads:
the `key` (used in the warning message) and the `internal` flag. -/
structure BSchema where
  key : String
  internal : Bool

/-- A built child instance as the container sees it here: its `id` (the
insertion-point lookup key), and whether `comp.getElement()` yields an
element (attachment is possible). -/
structure BInst where
  id : Nat
  hasElement : Bool
deriving DecidableEq, Repr

/-- `createComponent(component, options, data, before)` (source lines
138-163).  The factory `Components.create` plus the `parent`/`root`/
`build` handshake is external to this file's source and is abstracted as
the function `factory` producing the built instance.  Returns the new
instance and the updated `components` collection: unchanged when
`component.internal`, otherwise spliced in before the first entry whose
`id` equals `before.id` when `before` is given and found, appended
otherwise. -/
def createComponent (factory : BSchema → BInst) (components : List BInst)
    (schema : BSchema) (before : Option BInst) : BInst × List BInst :=
  let comp := factory schema
  if schema.internal then (comp, components)
  else
    match before with
    | some b =>
      match components.findIdx? (fun e => e.id == b.id) with
      | some i => (comp, components.take i ++ comp :: components.drop i)
      | none => (comp, components ++ [comp])
    | none => (comp, components ++ [comp])

/-- Observable steps of `addComponent` after creation: the console
warning on a missing element, the DOM attachment, and the `setHidden`
visibility cascade applied to the new child. -/
inductive AddEvent where
  | warned (key : String)
  | insertedBefore (id : Nat)
  | appended (id : Nat)
  | setHiddenApplied (id : Nat)
deriving DecidableEq, Repr

/-- `addComponent(component, element, data, before, noAdd)` (source lines
178-199).  `before` stands for the DOM insertion point; its `.component`
back-reference is the instance passed into `createComponent`, modelled
here as `before` directly.  After creation: return immediately when
`noAdd`; warn and return when the instance has no element; otherwise
attach (before the reference node or appended) and apply `setHidden`. -/
def addComponent (factory : BSchema → BInst) (components : List BInst)
    (schema : BSchema) (before : Option BInst) (noAdd : Bool) :
    BInst × List BInst × List AddEvent :=
  let created := createComponent factory components schema before
  let comp := created.1
  if noAdd then (comp, created.2, [])
  else if comp.hasElement = false then (comp, created.2, [AddEvent.warned schema.key])
  else
    match before with
    | some _ => (comp, created.2, [AddEvent.insertedBefore comp.id, AddEvent.setHiddenApplied comp.id])
    | none => (comp, created.2, [AddEvent.appended comp.id, AddEvent.setHiddenApplied comp.id])

end AC

namespace Vis

/-- A child as `setHidden` inspects it: its instance `components`
collection length (`0` for a leaf or an empty container), the schema's
static `hidden` flag (`component.component.hidden`), the schema `key`,
and the result of its own `conditionallyVisible()` check. -/
structure VChild where
  id : Nat
  key : String
  childCount : Nat
  schemaHidden : Bool
  condVisible : Bool
deriving DecidableEq, Repr

/-- What one `setHidden(component)` call does to the child. -/
inductive HOutcome where
  | delegated (hidden : List String)
  | forcedInvisible
  | unchanged
deriving DecidableEq, Repr

/-- `setHidden(component)` (source lines 430-443), with `hidden` the
container's current hidden-key set (`this.hidden`, always an array — a
truthy JS value — in this model, as in the constructor and
`hideComponents`): a container child with children gets
`hideComponents(this.hidden)`; otherwise the first applicable of the
static `hidden` flag, membership in the hidden set, or a failing
`conditionallyVisible()` forces `visible = false`; otherwise nothing
happens. -/
def setHidden (hidden : List String) (c : VChild) : HOutcome :=
  if c.childCount ≠ 0 then .delegated hidden
  else if c.schemaHidden then .forcedInvisible
  else if hidden.contains c.key then .forcedInvisible
  else if c.condVisible = false then .forcedInvisible
  else .unchanged

/-- `hideComponents(hidden)` (source lines 445-448): store the new hidden
set, then run `setHidden` on each direct child in order via
`eachComponent` (the visitor returns `undefined`, so no early stop).
Returns the stored set and the per-child outcomes. -/
def hideComponents (children : List VChild) (hidden : List String) :
    List String × List (Nat × HOutcome) :=
  (hidden, children.map (fun c => (c.id, setHidden hidden c)))

end Vis

/-! ## Helper lemmas -/

/-- An AND-reduce that also records each element's id equals the AND of
the seed with `all`, the recorded ids being exactly the whole list in
order — the fold never skips an element, whatever the booleans are. -/
theorem foldl_and_trace {α : Type} (f : α → Bool) (g : α → Nat) :
    ∀ (l : List α) (b : Bool) (t : List Nat),
      List.foldl (fun acc x => (f x && acc.1, acc.2 ++ [g x])) (b, t) l
        = (b && l.all f, t ++ l.map g) := by
  intro l
  induction l with
  | nil => intro b t; simp
  | cons x xs ih =>
    intro b t
    simp only [List.foldl_cons, List.all_cons, List.map_cons]
    rw [ih]
    have hb : ((f x && b) && xs.all f) = (b && (f x && xs.all f)) := by
      cases f x <;> cases b <;> simp
    simp [hb]

/-- The per-child `changed` recurrence realized by the `setValue` reduce:
a skipped button yields `false` (discarding the accumulator), any other
child yields its own result OR the accumulator. -/
def specChanged : Bool → List (Option Bool) → Bool
  | acc, [] => acc
  | _, none :: rest => specChanged false rest
  | acc, some r :: rest => specChanged (r || acc) rest

/-- `setNestedValue`'s returned boolean, read off its recorded call:
`false` when no call was made (the button branch), otherwise the child's
result OR the incoming accumulator. -/
theorem setNestedValue_changed (comp : NC.Child) (v : JSVal) (fl : Flags) (ch : Bool) :
    (NC.setNestedValue comp v fl ch).1 =
      (match (NC.setNestedValue comp v fl ch).2.2 with
        | none => false
        | some call => call.result || ch) := by
  unfold NC.setNestedValue
  split_ifs <;> simp

/-- The recorded call of `setNestedValue` is absent exactly on the button
branch, and a `"components"`-typed child is called with the unsliced
value. -/
theorem setNestedValue_call (comp : NC.Child) (v : JSVal) (fl : Flags) (ch : Bool) :
    ((NC.setNestedValue comp v fl ch).2.2 = none ↔ comp.type = "button") ∧
    (comp.type = "components" → ∀ call,
      (NC.setNestedValue comp v fl ch).2.2 = some call → call.value = v) := by
  unfold NC.setNestedValue
  constructor
  · split_ifs with h1 h2 h3 <;> simp_all
  · intro ht call
    split_ifs with h1 h2 h3 <;> simp_all
    intro h
    rw [← h]

/-- The aggregate of the `setValue` reduce is `specChanged` of the
per-child recorded results. -/
theorem setValueGo_changed (v : JSVal) :
    ∀ (l : List NC.Child) (ch : Bool) (fl : Flags),
      (NC.setValueGo v l ch fl).1 =
        specChanged ch
          ((NC.setValueGo v l ch fl).2.2.map (fun e => e.2.map (·.result))) := by
  intro l
  induction l with
  | nil => intro ch fl; simp [NC.setValueGo, specChanged]
  | cons comp rest ih =>
    intro ch fl
    show (NC.setValueGo v rest (NC.setNestedValue comp v fl ch).1
        (NC.setNestedValue comp v fl ch).2.1).1 = _
    rw [ih]
    have hs := setNestedValue_changed comp v fl ch
    cases hc : (NC.setNestedValue comp v fl ch).2.2 with
    | none =>
      rw [hc] at hs
      simp only [NC.setValueGo, hc, List.map_cons, Option.map_none, specChanged, hs]
    | some call =>
      rw [hc] at hs
      simp only [NC.setValueGo, hc, List.map_cons, Option.map_some, specChanged, hs]

/-- With no `none` in the list, `specChanged` is the plain OR of the seed
and all the results. -/
theorem specChanged_no_none :
    ∀ (l : List (Option Bool)) (acc : Bool), (∀ e ∈ l, e ≠ none) →
      specChanged acc l = (acc || l.any (fun e => e.getD false)) := by
  intro l
  induction l with
  | nil => intro acc _; simp [specChanged]
  | cons x rest ih =>
    intro acc h
    cases x with
    | none => exact absurd rfl (h none (by simp))
    | some r =>
      have := ih (r || acc) (fun e he => h e (by simp [he]))
      simp only [specChanged, this, List.any_cons, Option.getD_some]
      cases r <;> cases acc <;> simp

/-- A `none` wipes the accumulator: with a `none`-free tail `l2`,
`specChanged` over `l1 ++ none :: l2` is the OR over `l2` alone. -/
theorem specChanged_after_none :
    ∀ (l1 l2 : List (Option Bool)) (acc : Bool), (∀ e ∈ l2, e ≠ none) →
      specChanged acc (l1 ++ none :: l2) = l2.any (fun e => e.getD false) := by
  intro l1
  induction l1 with
  | nil =>
    intro l2 acc h
    simp only [List.nil_append, specChanged]
    simp [specChanged_no_none l2 false h]
  | cons x l1' ih =>
    intro l2 acc h
    cases x with
    | none => simpa [specChanged] using ih l2 false h
    | some r => simpa [specChanged] using ih l2 (r || acc) h

/-- `any` over a mapped list is `any` of the composition. -/
theorem list_any_map {α β : Type} (f : α → β) (p : β → Bool) :
    ∀ l : List α, (l.map f).any p = l.any (fun x => p (f x)) := by
  intro l
  induction l with
  | nil => rfl
  | cons x xs ih => simp [ih]

/-- Shape of the recorded per-child entries of the `setValue` reduce:
one entry per child in collection order carrying the child's id, with no
call exactly for buttons, and the unsliced value passed to
`"components"`-typed children — whatever the threaded flags are. -/
theorem setValueGo_entries (v : JSVal) :
    ∀ (l : List NC.Child) (ch : Bool) (fl : Flags),
      List.Forall₂ (fun (comp : NC.Child) (e : Nat × Option NC.SVCall) =>
          e.1 = comp.id ∧ (e.2 = none ↔ comp.type = "button") ∧
          (comp.type = "components" → ∀ call, e.2 = some call → call.value = v))
        l (NC.setValueGo v l ch fl).2.2 := by
  intro l
  induction l with
  | nil => intro ch fl; simp [NC.setValueGo]
  | cons comp rest ih =>
    intro ch fl
    have hsh : (NC.setValueGo v (comp :: rest) ch fl).2.2 =
        (comp.id, (NC.setNestedValue comp v fl ch).2.2) ::
          (NC.setValueGo v rest (NC.setNestedValue comp v fl ch).1
            (NC.setNestedValue comp v fl ch).2.1).2.2 := rfl
    rw [hsh]
    exact List.Forall₂.cons ⟨rfl, (setNestedValue_call comp v fl ch).1,
      (setNestedValue_call comp v fl ch).2⟩ (ih _ _)

/-- Once the threaded flags object has `noValidate` set, every later
`setNestedValue` step keeps it set and every call it makes passes flags
with it set (no branch ever clears `noValidate`). -/
theorem setNestedValue_flags_mono (comp : NC.Child) (v : JSVal) (fl : Flags) (ch : Bool)
    (h : fl.noValidate = true) :
    (NC.setNestedValue comp v fl ch).2.1.noValidate = true ∧
    (∀ call, (NC.setNestedValue comp v fl ch).2.2 = some call →
      call.flags.noValidate = true) := by
  constructor
  · unfold NC.setNestedValue
    split_ifs <;> simp [h]
  · intro call hcall
    unfold NC.setNestedValue at hcall
    split_ifs at hcall <;>
      (injection hcall with hx
       rw [← hx]
       try simp [h])

/-- `noValidate` monotonicity over a whole reduce run: started with it
set, the final flags have it set and every recorded call received flags
with it set. -/
theorem setValueGo_flags_mono (v : JSVal) :
    ∀ (l : List NC.Child) (ch : Bool) (fl : Flags), fl.noValidate = true →
      (NC.setValueGo v l ch fl).2.1.noValidate = true ∧
      (∀ e ∈ (NC.setValueGo v l ch fl).2.2, ∀ call, e.2 = some call →
        call.flags.noValidate = true) := by
  intro l
  induction l with
  | nil => intro ch fl h; exact ⟨h, by simp [NC.setValueGo]⟩
  | cons comp rest ih =>
    intro ch fl h
    have hs := setNestedValue_flags_mono comp v fl ch h
    have hr := ih (NC.setNestedValue comp v fl ch).1
      (NC.setNestedValue comp v fl ch).2.1 hs.1
    have hsh : NC.setValueGo v (comp :: rest) ch fl =
        ((NC.setValueGo v rest (NC.setNestedValue comp v fl ch).1
            (NC.setNestedValue comp v fl ch).2.1).1,
          (NC.setValueGo v rest (NC.setNestedValue comp v fl ch).1
            (NC.setNestedValue comp v fl ch).2.1).2.1,
          (comp.id, (NC.setNestedValue comp v fl ch).2.2) ::
            (NC.setValueGo v rest (NC.setNestedValue comp v fl ch).1
              (NC.setNestedValue comp v fl ch).2.1).2.2) := rfl
    rw [hsh]
    refine ⟨hr.1, ?_⟩
    intro e he call hcall
    rcases List.mem_cons.mp he with he1 | he2
    · rw [he1] at hcall; exact hs.2 call hcall
    · exact hr.2 e he2 call hcall

/-- The defaulting branch mutates the threaded flags: a child that is not
a button, not a nested container, and has no matching entry in the value
leaves `noValidate` set on the flags object. -/
theorem setNestedValue_default_sets (comp : NC.Child) (v : JSVal) (fl : Flags) (ch : Bool)
    (hb : comp.type ≠ "button") (hn : comp.type ≠ "components")
    (hh : (truthy v && comp.hasValue v) = false) :
    (NC.setNestedValue comp v fl ch).2.1.noValidate = true := by
  unfold NC.setNestedValue
  rw [if_neg (by simp [hb]), if_neg (by simp [hn]), if_neg (by simp [hh])]

/-- Running the reduce on an appended list is running it on the first
part, then on the second from the threaded state, entries concatenated. -/
theorem setValueGo_append (v : JSVal) :
    ∀ (l1 l2 : List NC.Child) (ch : Bool) (fl : Flags),
      NC.setValueGo v (l1 ++ l2) ch fl =
        ((NC.setValueGo v l2 (NC.setValueGo v l1 ch fl).1
            (NC.setValueGo v l1 ch fl).2.1).1,
          (NC.setValueGo v l2 (NC.setValueGo v l1 ch fl).1
            (NC.setValueGo v l1 ch fl).2.1).2.1,
          (NC.setValueGo v l1 ch fl).2.2 ++
            (NC.setValueGo v l2 (NC.setValueGo v l1 ch fl).1
              (NC.setValueGo v l1 ch fl).2.1).2.2) := by
  intro l1
  induction l1 with
  | nil => intro l2 ch fl; simp [NC.setValueGo]
  | cons comp rest ih =>
    intro l2 ch fl
    have hcons : ∀ (l' : List NC.Child),
        NC.setValueGo v (comp :: l') ch fl =
          ((NC.setValueGo v l' (NC.setNestedValue comp v fl ch).1
              (NC.setNestedValue comp v fl ch).2.1).1,
            (NC.setValueGo v l' (NC.setNestedValue comp v fl ch).1
              (NC.setNestedValue comp v fl ch).2.1).2.1,
            (comp.id, (NC.setNestedValue comp v fl ch).2.2) ::
              (NC.setValueGo v l' (NC.setNestedValue comp v fl ch).1
                (NC.setNestedValue comp v fl ch).2.1).2.2) := fun _ => rfl
    rw [List.cons_append, hcons (rest ++ l2), hcons rest, ih]
    simp

/-- One entry is recorded per child. -/
theorem setValueGo_entries_length (v : JSVal) :
    ∀ (l : List NC.Child) (ch : Bool) (fl : Flags),
      (NC.setValueGo v l ch fl).2.2.length = l.length := by
  intro l
  induction l with
  | nil => intro ch fl; rfl
  | cons comp rest ih =>
    intro ch fl
    simpa [NC.setValueGo] using ih _ _

/-- The JS values the `checkData` accumulators range over: the seeding
booleans and the 0/1 numbers the bitwise operators produce. -/
def zoVal (x : JSVal) : Prop :=
  x = .bool true ∨ x = .bool false ∨ x = .num 0 ∨ x = .num 1

/-- On the accumulator values, `|=` with a boolean is truthiness OR. -/
theorem jsBitOr_zo (x : JSVal) (r : Bool) (hx : zoVal x) :
    jsBitOr x (.bool r) = (if truthy x || r then 1 else 0) := by
  rcases hx with h | h | h | h <;> subst h <;> cases r <;> decide

/-- On the accumulator values, `&=` with a boolean is truthiness AND. -/
theorem jsBitAnd_zo (x : JSVal) (r : Bool) (hx : zoVal x) :
    jsBitAnd x (.bool r) = (if truthy x && r then 1 else 0) := by
  rcases hx with h | h | h | h <;> subst h <;> cases r <;> decide

/-- A 0/1 number's truthiness reads off the guard. -/
theorem truthy_num_if (b : Bool) :
    truthy (JSVal.num (if b then 1 else 0)) = b := by
  cases b <;> rfl

/-- A 0/1 number is an accumulator value. -/
theorem zoVal_num_if (b : Bool) : zoVal (JSVal.num (if b then 1 else 0)) := by
  cases b <;> simp [zoVal]

/-- The events the `checkData` loop contributes per child, in child
order: `calculateValue`, `checkConditions`, and — unless `noValidate` —
`checkValidity`. -/
def cdChildEvents (flags : Flags) (l : List NC.Child) : List NC.CDEvent :=
  l.bind (fun comp =>
    [NC.CDEvent.calc comp.id, NC.CDEvent.conds comp.id] ++
      (if flags.noValidate then [] else [NC.CDEvent.validity comp.id]))

/-- The final `changed` of the `checkData` loop is truthy exactly when
the seed was truthy or some child's `calculateValue` returned `true`. -/
theorem checkDataGo_changed (data : JSVal) (flags : Flags) :
    ∀ (l : List NC.Child) (ch va : JSVal) (evs : List NC.CDEvent), zoVal ch →
      truthy (NC.checkDataGo data flags l ch va evs).1 =
        (truthy ch ||
          l.any (fun comp => comp.calculateValueR data { noUpdateEvent := true })) := by
  intro l
  induction l with
  | nil => intro ch va evs _; simp [NC.checkDataGo]
  | cons comp rest ih =>
    intro ch va evs h
    have hor := jsBitOr_zo ch (comp.calculateValueR data { noUpdateEvent := true }) h
    have hzo : zoVal (JSVal.num (jsBitOr ch
        (.bool (comp.calculateValueR data { noUpdateEvent := true })))) := by
      rw [hor]; exact zoVal_num_if _
    by_cases hnv : flags.noValidate
    · have hstep : NC.checkDataGo data flags (comp :: rest) ch va evs =
          NC.checkDataGo data flags rest
            (.num (jsBitOr ch (.bool (comp.calculateValueR data { noUpdateEvent := true }))))
            va (evs ++ [NC.CDEvent.calc comp.id, NC.CDEvent.conds comp.id]) := by
        simp [NC.checkDataGo, hnv]
      rw [hstep, ih _ _ _ hzo, hor, truthy_num_if]
      simp [Bool.or_assoc]
    · have hstep : NC.checkDataGo data flags (comp :: rest) ch va evs =
          NC.checkDataGo data flags rest
            (.num (jsBitOr ch (.bool (comp.calculateValueR data { noUpdateEvent := true }))))
            (.num (jsBitAnd va (.bool (comp.checkValidityR data none))))
            ((evs ++ [NC.CDEvent.calc comp.id, NC.CDEvent.conds comp.id]) ++
              [NC.CDEvent.validity comp.id]) := by
        simp [NC.checkDataGo, hnv]
      rw [hstep, ih _ _ _ hzo, hor, truthy_num_if]
      simp [Bool.or_assoc]

/-- With `noValidate`, the loop never touches `valid`. -/
theorem checkDataGo_valid_noValidate (data : JSVal) (flags : Flags)
    (hnv : flags.noValidate = true) :
    ∀ (l : List NC.Child) (ch va : JSVal) (evs : List NC.CDEvent),
      (NC.checkDataGo data flags l ch va evs).2.1 = va := by
  intro l
  induction l with
  | nil => intro ch va evs; rfl
  | cons comp rest ih =>
    intro ch va evs
    have hstep : NC.checkDataGo data flags (comp :: rest) ch va evs =
        NC.checkDataGo data flags rest
          (.num (jsBitOr ch (.bool (comp.calculateValueR data { noUpdateEvent := true }))))
          va (evs ++ [NC.CDEvent.calc comp.id, NC.CDEvent.conds comp.id]) := by
      simp [NC.checkDataGo, hnv]
    rw [hstep, ih]

/-- Without `noValidate`, the loop turns `valid` into the 0/1 number
that is 1 exactly when the seed was truthy and every child's
`checkValidity(data)` returned true (on a non-empty child list). -/
theorem checkDataGo_valid (data : JSVal) (flags : Flags)
    (hnv : flags.noValidate = false) :
    ∀ (l : List NC.Child) (ch va : JSVal) (evs : List NC.CDEvent), zoVal va →
      (NC.checkDataGo data flags l ch va evs).2.1 =
        (if l.isEmpty then va
          else .num (if truthy va &&
            l.all (fun comp => comp.checkValidityR data none) then 1 else 0)) := by
  intro l
  induction l with
  | nil => intro ch va evs _; rfl
  | cons comp rest ih =>
    intro ch va evs h
    have hand := jsBitAnd_zo va (comp.checkValidityR data none) h
    have hzo : zoVal (JSVal.num (jsBitAnd va (.bool (comp.checkValidityR data none)))) := by
      rw [hand]; exact zoVal_num_if _
    have hstep : NC.checkDataGo data flags (comp :: rest) ch va evs =
        NC.checkDataGo data flags rest
          (.num (jsBitOr ch (.bool (comp.calculateValueR data { noUpdateEvent := true }))))
          (.num (jsBitAnd va (.bool (comp.checkValidityR data none))))
          ((evs ++ [NC.CDEvent.calc comp.id, NC.CDEvent.conds comp.id]) ++
            [NC.CDEvent.validity comp.id]) := by
      simp [NC.checkDataGo, hnv]
    rw [hstep, ih _ _ _ hzo, hand]
    cases hrest : rest.isEmpty
    · have t1 : truthy (JSVal.num 1) = true := rfl
      have t0 : truthy (JSVal.num 0) = false := rfl
      by_cases h1 : truthy va = true <;> by_cases h2 : comp.checkValidityR data none = true <;>
        simp [hrest, List.all_cons, h1, h2, t1, t0]
    · have : rest = [] := by
        cases rest with
        | nil => rfl
        | cons a b => simp at hrest
      subst this
      simp [List.all_cons]

/-- The events of the `checkData` loop are the incoming events followed
by the per-child contributions, in child order. -/
theorem checkDataGo_events (data : JSVal) (flags : Flags) :
    ∀ (l : List NC.Child) (ch va : JSVal) (evs : List NC.CDEvent),
      (NC.checkDataGo data flags l ch va evs).2.2 = evs ++ cdChildEvents flags l := by
  intro l
  induction l with
  | nil => intro ch va evs; simp [NC.checkDataGo, cdChildEvents]
  | cons comp rest ih =>
    intro ch va evs
    by_cases hnv : flags.noValidate
    · have hstep : NC.checkDataGo data flags (comp :: rest) ch va evs =
          NC.checkDataGo data flags rest
            (.num (jsBitOr ch (.bool (comp.calculateValueR data { noUpdateEvent := true }))))
            va (evs ++ [NC.CDEvent.calc comp.id, NC.CDEvent.conds comp.id]) := by
        simp [NC.checkDataGo, hnv]
      rw [hstep, ih]
      simp [cdChildEvents, hnv]
    · have hstep : NC.checkDataGo data flags (comp :: rest) ch va evs =
          NC.checkDataGo data flags rest
            (.num (jsBitOr ch (.bool (comp.calculateValueR data { noUpdateEvent := true }))))
            (.num (jsBitAnd va (.bool (comp.checkValidityR data none))))
            ((evs ++ [NC.CDEvent.calc comp.id, NC.CDEvent.conds comp.id]) ++
              [NC.CDEvent.validity comp.id]) := by
        simp [NC.checkDataGo, hnv]
      rw [hstep, ih]
      simp [cdChildEvents, hnv]

/-- When the visitor never returns exactly `false`, `eachComponent`
visits the whole collection. -/
theorem eachTraceGo_no_false (fn : Tr.CompTree → Nat → JSVal)
    (hf : ∀ x j, isFalseVal (fn x j) = false) :
    ∀ (l : List Tr.CompTree) (s : Nat), Tr.eachTraceGo fn l s = l := by
  intro l
  induction l with
  | nil => intro s; rfl
  | cons c rest ih =>
    intro s
    simp [Tr.eachTraceGo, hf, ih]

/-- `eachComponent` stops exactly at the first child on which the
visitor returns `false`: that child is the last one visited. -/
theorem eachTraceGo_stop (fn : Tr.CompTree → Nat → JSVal) :
    ∀ (l1 : List Tr.CompTree) (c : Tr.CompTree) (l2 : List Tr.CompTree) (s : Nat),
      (∀ j x, l1.get? j = some x → isFalseVal (fn x (s + j)) = false) →
      isFalseVal (fn c (s + l1.length)) = true →
      Tr.eachTraceGo fn (l1 ++ c :: l2) s = l1 ++ [c] := by
  intro l1
  induction l1 with
  | nil =>
    intro c l2 s _ hc
    simp only [List.nil_append, List.length_nil, Nat.add_zero] at hc ⊢
    simp [Tr.eachTraceGo, hc]
  | cons x l1' ih =>
    intro c l2 s h1 hc
    have hx : isFalseVal (fn x s) = false := by
      have := h1 0 x (by simp)
      simpa using this
    have ih' := ih c l2 (s + 1)
      (fun j y hj => by
        have := h1 (j + 1) y (by simpa using hj)
        have harith : s + (j + 1) = s + 1 + j := by omega
        rwa [harith] at this)
      (by
        have harith : s + (x :: l1').length = s + 1 + l1'.length := by simp; omega
        rwa [harith] at hc)
    simp [Tr.eachTraceGo, hx, ih']

/-- One `everyComponent` level stops outright — children not entered —
when the visitor returns `false` on the head. -/
theorem everyTraceGo_cons_false (fn : Tr.CompTree → List Tr.CompTree → Nat → JSVal)
    (sib : List Tr.CompTree) (c : Tr.CompTree) (rest : List Tr.CompTree) (i : Nat)
    (h : isFalseVal (fn c sib i) = true) :
    Tr.everyTraceGo fn sib (c :: rest) i = [c] := by
  cases c <;> simp [Tr.everyTraceGo, h]

/-- When the visitor does not return `false` on the head, the head is
visited, its own subtree is traversed (with a fresh level: its children
as the sibling collection, indices from 0), and iteration over the
remaining siblings continues — whatever happened inside the subtree. -/
theorem everyTraceGo_cons_go (fn : Tr.CompTree → List Tr.CompTree → Nat → JSVal)
    (sib : List Tr.CompTree) (c : Tr.CompTree) (rest : List Tr.CompTree) (i : Nat)
    (h : isFalseVal (fn c sib i) = false) :
    Tr.everyTraceGo fn sib (c :: rest) i =
      c :: (Tr.everyTraceGo fn c.children c.children 0 ++
        Tr.everyTraceGo fn sib rest (i + 1)) := by
  cases c with
  | leaf a k =>
    simp [Tr.everyTraceGo, h, Tr.CompTree.children]
  | container a k cs =>
    simp [Tr.everyTraceGo, h, Tr.CompTree.children]

/-- When the visitor never returns exactly `false`, `everyComponent`
realizes the full depth-first pre-order traversal. -/
theorem everyTraceGo_no_false (fn : Tr.CompTree → List Tr.CompTree → Nat → JSVal)
    (hf : ∀ x s i, isFalseVal (fn x s i) = false) :
    ∀ (l sib : List Tr.CompTree) (i : Nat),
      Tr.everyTraceGo fn sib l i = Tr.preorderGo l := by
  have main : ∀ (n : Nat) (l sib : List Tr.CompTree) (i : Nat), sizeOf l = n →
      Tr.everyTraceGo fn sib l i = Tr.preorderGo l := by
    intro n
    induction n using Nat.strong_induction_on with
    | _ n ih =>
      intro l sib i hn
      cases l with
      | nil => simp [Tr.everyTraceGo, Tr.preorderGo]
      | cons c rest =>
        cases c with
        | leaf a k =>
          have h1 := everyTraceGo_cons_go fn sib (.leaf a k) rest i (hf _ _ _)
          have h2 := ih (sizeOf rest)
            (by subst hn; first | (simp; omega) | simp | omega) rest sib (i + 1) rfl
          rw [h1, h2]
          simp [Tr.preorderGo, Tr.CompTree.children, Tr.everyTraceGo]
        | container a k cs =>
          have h1 := everyTraceGo_cons_go fn sib (.container a k cs) rest i (hf _ _ _)
          have h2 := ih (sizeOf cs)
            (by subst hn; first | (simp; omega) | simp | omega) cs cs 0 rfl
          have h3 := ih (sizeOf rest)
            (by subst hn; first | (simp; omega) | simp | omega) rest sib (i + 1) rfl
          rw [h1]
          simp only [Tr.CompTree.children] at *
          rw [h2, h3]
          simp [Tr.preorderGo]
  intro l sib i
  exact main (sizeOf l) l sib i rfl

/-- If the deep search ends with no match recorded, it started with no
match recorded and fired no callback. -/
theorem getCompGo_none (p : Tr.CompTree → Bool) :
    ∀ (n : Nat) (l sib : List Tr.CompTree) (acc : Option Tr.Found), sizeOf l = n →
      (Tr.getCompGo p sib l acc).1 = none →
      acc = none ∧ (Tr.getCompGo p sib l acc).2 = [] := by
  intro n
  induction n using Nat.strong_induction_on with
  | _ n ih =>
    intro l sib acc hn h
    cases l with
    | nil =>
      rw [ Tr.getCompGo.eq_def] at h ⊢
      exact ⟨by simpa using h, rfl⟩
    | cons c rest =>
      by_cases hp : p c
      · have he : Tr.getCompGo p sib (c :: rest) acc =
            (some ⟨c, sib⟩, [⟨c, sib⟩]) := by
          rw [ Tr.getCompGo.eq_def]
          simp [hp]
        rw [he] at h
        exact absurd h (by simp)
      · cases c with
        | leaf a k =>
          have he : Tr.getCompGo p sib (Tr.CompTree.leaf a k :: rest) acc =
              Tr.getCompGo p sib rest acc := by
            rw [ Tr.getCompGo.eq_def]
            simp [hp]
          rw [he] at h ⊢
          exact ih (sizeOf rest)
            (by subst hn; first | (simp; omega) | simp | omega) rest sib acc rfl h
        | container a k cs =>
          have he : Tr.getCompGo p sib (Tr.CompTree.container a k cs :: rest) acc =
              ((Tr.getCompGo p sib rest (Tr.getCompGo p cs cs acc).1).1,
                (Tr.getCompGo p cs cs acc).2 ++
                  (Tr.getCompGo p sib rest (Tr.getCompGo p cs cs acc).1).2) := by
            rw [ Tr.getCompGo.eq_def]
            simp [hp]
          rw [he] at h ⊢
          have houter := ih (sizeOf rest)
            (by subst hn; first | (simp; omega) | simp | omega) rest sib
            (Tr.getCompGo p cs cs acc).1 rfl h
          have hinner := ih (sizeOf cs)
            (by subst hn; first | (simp; omega) | simp | omega) cs cs acc rfl houter.1
          exact ⟨hinner.1, by simp [hinner.2, houter.2]⟩

/-- Every callback the deep search fires is on a component satisfying
the match predicate. -/
theorem getCompGo_founds (p : Tr.CompTree → Bool) :
    ∀ (n : Nat) (l sib : List Tr.CompTree) (acc : Option Tr.Found), sizeOf l = n →
      ∀ g ∈ (Tr.getCompGo p sib l acc).2, p g.comp = true := by
  intro n
  induction n using Nat.strong_induction_on with
  | _ n ih =>
    intro l sib acc hn g hg
    cases l with
    | nil =>
      rw [ Tr.getCompGo.eq_def] at hg
      simp at hg
    | cons c rest =>
      by_cases hp : p c
      · have he : Tr.getCompGo p sib (c :: rest) acc =
            (some ⟨c, sib⟩, [⟨c, sib⟩]) := by
          rw [ Tr.getCompGo.eq_def]
          simp [hp]
        rw [he] at hg
        have : g = (⟨c, sib⟩ : Tr.Found) := by simpa using hg
        rw [this]
        exact hp
      · cases c with
        | leaf a k =>
          have he : Tr.getCompGo p sib (Tr.CompTree.leaf a k :: rest) acc =
              Tr.getCompGo p sib rest acc := by
            rw [ Tr.getCompGo.eq_def]
            simp [hp]
          rw [he] at hg
          exact ih (sizeOf rest)
            (by subst hn; first | (simp; omega) | simp | omega) rest sib acc rfl g hg
        | container a k cs =>
          have he : Tr.getCompGo p sib (Tr.CompTree.container a k cs :: rest) acc =
              ((Tr.getCompGo p sib rest (Tr.getCompGo p cs cs acc).1).1,
                (Tr.getCompGo p cs cs acc).2 ++
                  (Tr.getCompGo p sib rest (Tr.getCompGo p cs cs acc).1).2) := by
            rw [ Tr.getCompGo.eq_def]
            simp [hp]
          rw [he] at hg
          rcases List.mem_append.mp hg with hg1 | hg2
          · exact ih (sizeOf cs)
              (by subst hn; first | (simp; omega) | simp | omega) cs cs acc rfl g hg1
          · exact ih (sizeOf rest)
              (by subst hn; first | (simp; omega) | simp | omega) rest sib
              (Tr.getCompGo p cs cs acc).1 rfl g hg2

/-- If the deep search fires no callback, the recorded match is
unchanged. -/
theorem getCompGo_empty (p : Tr.CompTree → Bool) :
    ∀ (n : Nat) (l sib : List Tr.CompTree) (acc : Option Tr.Found), sizeOf l = n →
      (Tr.getCompGo p sib l acc).2 = [] → (Tr.getCompGo p sib l acc).1 = acc := by
  intro n
  induction n using Nat.strong_induction_on with
  | _ n ih =>
    intro l sib acc hn h
    cases l with
    | nil =>
      rw [ Tr.getCompGo.eq_def]
    | cons c rest =>
      by_cases hp : p c
      · have he : Tr.getCompGo p sib (c :: rest) acc =
            (some ⟨c, sib⟩, [⟨c, sib⟩]) := by
          rw [ Tr.getCompGo.eq_def]
          simp [hp]
        rw [he] at h
        exact absurd h (by simp)
      · cases c with
        | leaf a k =>
          have he : Tr.getCompGo p sib (Tr.CompTree.leaf a k :: rest) acc =
              Tr.getCompGo p sib rest acc := by
            rw [ Tr.getCompGo.eq_def]
            simp [hp]
          rw [he] at h ⊢
          exact ih (sizeOf rest)
            (by subst hn; first | (simp; omega) | simp | omega) rest sib acc rfl h
        | container a k cs =>
          have he : Tr.getCompGo p sib (Tr.CompTree.container a k cs :: rest) acc =
              ((Tr.getCompGo p sib rest (Tr.getCompGo p cs cs acc).1).1,
                (Tr.getCompGo p cs cs acc).2 ++
                  (Tr.getCompGo p sib rest (Tr.getCompGo p cs cs acc).1).2) := by
            rw [ Tr.getCompGo.eq_def]
            simp [hp]
          rw [he] at h ⊢
          have hsplit := List.append_eq_nil.mp h
          have hinner := ih (sizeOf cs)
            (by subst hn; first | (simp; omega) | simp | omega) cs cs acc rfl hsplit.1
          have houter := ih (sizeOf rest)
            (by subst hn; first | (simp; omega) | simp | omega) rest sib
            (Tr.getCompGo p cs cs acc).1 rfl hsplit.2
          rw [houter, hinner]

/-- `removeComp`'s outcome, by search result: explicit `null` with a
`fn(null)` callback on a miss, implicit `undefined` with at least one
removal callback — each on a matching component — on a hit. -/
theorem removeComp_spec (p : Tr.CompTree → Bool) (l : List Tr.CompTree) :
    ((Tr.getComp p l).1 = none →
      Tr.removeComp p l = (JSRet.null, [Tr.RemEvent.missNull])) ∧
    (∀ f, (Tr.getComp p l).1 = some f →
      (Tr.removeComp p l).1 = JSRet.undefined ∧
      (Tr.removeComp p l).2 ≠ [] ∧
      (∀ ev ∈ (Tr.removeComp p l).2, ∃ g, ev = Tr.RemEvent.removed g ∧
        p g.comp = true)) := by
  have hrm : ∀ r : Option Tr.Found × List Tr.Found, Tr.getCompGo p l l none = r →
      Tr.removeComp p l =
        (match r.1 with
          | some _ => (JSRet.undefined, r.2.map Tr.RemEvent.removed)
          | none => (JSRet.null, r.2.map Tr.RemEvent.removed ++ [Tr.RemEvent.missNull])) := by
    intro r hr
    unfold Tr.removeComp Tr.getComp
    rw [hr]
  constructor
  · intro h
    have h' : (Tr.getCompGo p l l none).1 = none := h
    have hfounds := (getCompGo_none p (sizeOf l) l l none rfl h').2
    rw [hrm (Tr.getCompGo p l l none) rfl, h', hfounds]
    rfl
  · intro f h
    have h' : (Tr.getCompGo p l l none).1 = some f := h
    have hne : (Tr.getCompGo p l l none).2 ≠ [] := by
      intro hempty
      have hacc := getCompGo_empty p (sizeOf l) l l none rfl hempty
      rw [hacc] at h'
      exact Option.noConfusion h'
    rw [hrm (Tr.getCompGo p l l none) rfl, h']
    refine ⟨rfl, by simpa using hne, ?_⟩
    intro ev hev
    rcases List.mem_map.mp hev with ⟨g, hg, hmap⟩
    exact ⟨g, hmap.symm, getCompGo_founds p (sizeOf l) l l none rfl g hg⟩

/-! ## Claim theorems -/

/-- Counterexample to C5 as stated: removing the only component (key
`"a"`) of a one-node tree — a successful removal — returns the implicit
`undefined` of a body that falls off the end, not `null`, so the
functions do not return `null` in all cases. -/
theorem claim_C5_counterexample :
    (Tr.removeComponentByKey [Tr.CompTree.leaf 1 "a"] "a").1 = JSRet.undefined ∧
    JSRet.undefined ≠ JSRet.null := by
  have hg : (Tr.getComp (fun c => c.ckey == "a") [Tr.CompTree.leaf 1 "a"]).1 =
      some ⟨Tr.CompTree.leaf 1 "a", [Tr.CompTree.leaf 1 "a"]⟩ := by
    unfold Tr.getComp
    rw [ Tr.getCompGo.eq_def]
    simp [Tr.CompTree.ckey]
  refine ⟨?_, by decide⟩
  have h := ((removeComp_spec (fun c => c.ckey == "a") [Tr.CompTree.leaf 1 "a"]).2
    ⟨Tr.CompTree.leaf 1 "a", [Tr.CompTree.leaf 1 "a"]⟩ hg).1
  simpa [Tr.removeComponentByKey] using h

/-- Claim C5 (amended): `removeComponentByKey` and `removeComponentById`
never throw and return only `undefined` or `null`: the explicit `null`
(with the callback invoked as `fn(null)`) exactly on a lookup miss, and
the implicit `undefined` on success, where the callback is invoked with
`(foundInstance, owningCollection)` — every such invocation on a
component matching the key (resp. id). -/
theorem claim_C5_amended (l : List Tr.CompTree) (key : String) (i : Nat) :
    ((Tr.removeComponentByKey l key).1 = JSRet.undefined ∨
      (Tr.removeComponentByKey l key).1 = JSRet.null) ∧
    ((Tr.getComp (fun x => x.ckey == key) l).1 = none →
      Tr.removeComponentByKey l key = (JSRet.null, [Tr.RemEvent.missNull])) ∧
    (∀ f, (Tr.getComp (fun x => x.ckey == key) l).1 = some f →
      (Tr.removeComponentByKey l key).1 = JSRet.undefined ∧
      (Tr.removeComponentByKey l key).2 ≠ [] ∧
      (∀ ev ∈ (Tr.removeComponentByKey l key).2,
        ∃ g, ev = Tr.RemEvent.removed g ∧ g.comp.ckey = key)) ∧
    ((Tr.removeComponentById l i).1 = JSRet.undefined ∨
      (Tr.removeComponentById l i).1 = JSRet.null) ∧
    ((Tr.getComp (fun x => x.cid == i) l).1 = none →
      Tr.removeComponentById l i = (JSRet.null, [Tr.RemEvent.missNull])) ∧
    (∀ f, (Tr.getComp (fun x => x.cid == i) l).1 = some f →
      (Tr.removeComponentById l i).1 = JSRet.undefined ∧
      (Tr.removeComponentById l i).2 ≠ [] ∧
      (∀ ev ∈ (Tr.removeComponentById l i).2,
        ∃ g, ev = Tr.RemEvent.removed g ∧ g.comp.cid = i)) := by
  have hk := removeComp_spec (fun c => c.ckey == key) l
  have hi := removeComp_spec (fun c => c.cid == i) l
  simp only [Tr.removeComponentByKey, Tr.removeComponentById]
  refine ⟨?_, hk.1, ?_, ?_, hi.1, ?_⟩
  · cases hres : (Tr.getComp (fun c => c.ckey == key) l).1 with
    | none =>
      right
      rw [hk.1 hres]
    | some f =>
      left
      exact (hk.2 f hres).1
  · intro f hf
    refine ⟨(hk.2 f hf).1, (hk.2 f hf).2.1, ?_⟩
    intro ev hev
    rcases (hk.2 f hf).2.2 ev hev with ⟨g, hg1, hg2⟩
    exact ⟨g, hg1, by simpa using hg2⟩
  · cases hres : (Tr.getComp (fun c => c.cid == i) l).1 with
    | none =>
      right
      rw [hi.1 hres]
    | some f =>
      left
      exact (hi.2 f hres).1
  · intro f hf
    refine ⟨(hi.2 f hf).1, (hi.2 f hf).2.1, ?_⟩
    intro ev hev
    rcases (hi.2 f hf).2.2 ev hev with ⟨g, hg1, hg2⟩
    exact ⟨g, hg1, by simpa using hg2⟩

/-- Witness for the amended C5: on a one-leaf tree, a missing key yields
`(null, fn(null))` and the present key yields the `undefined` return. -/
theorem claim_C5_amended_witness :
    Tr.removeComponentByKey [Tr.CompTree.leaf 1 "a"] "z" =
      (JSRet.null, [Tr.RemEvent.missNull]) ∧
    (Tr.removeComponentByKey [Tr.CompTree.leaf 1 "a"] "a").1 = JSRet.undefined := by
  constructor
  · refine (claim_C5_amended [Tr.CompTree.leaf 1 "a"] "z" 0).2.1 ?_
    unfold Tr.getComp
    rw [ Tr.getCompGo.eq_def]
    simp [Tr.CompTree.ckey]
    rw [ Tr.getCompGo.eq_def]
  · refine ((claim_C5_amended [Tr.CompTree.leaf 1 "a"] "a" 0).2.2.1
      ⟨Tr.CompTree.leaf 1 "a", [Tr.CompTree.leaf 1 "a"]⟩ ?_).1
    unfold Tr.getComp
    rw [ Tr.getCompGo.eq_def]
    simp [Tr.CompTree.ckey]

/-- Claim C6: `eachComponent` visits direct children in collection order
and stops exactly on a visitor return of the value `false` (any other
return, e.g. `undefined`, continues): with no `false` the whole
collection is visited, and with the first `false` at some position that
child is the last one visited.  `everyComponent` is depth-first
pre-order: with no `false` it yields exactly the pre-order flattening;
a `false` on a child stops that level's loop without entering the
child's subtree; and when the visit does not return `false`, the child's
subtree is traversed and iteration over its later siblings continues
regardless of any `false` returned inside the subtree (the recursive
call returns `undefined`, never `false`). -/
theorem claim_C6 (fn : Tr.CompTree → List Tr.CompTree → Nat → JSVal)
    (fn2 : Tr.CompTree → Nat → JSVal) (l : List Tr.CompTree) :
    ((∀ x j, isFalseVal (fn2 x j) = false) → Tr.eachTrace fn2 l = l) ∧
    (∀ l1 c l2, l = l1 ++ c :: l2 →
      (∀ j x, l1.get? j = some x → isFalseVal (fn2 x j) = false) →
      isFalseVal (fn2 c l1.length) = true →
      Tr.eachTrace fn2 l = l1 ++ [c]) ∧
    ((∀ x s i, isFalseVal (fn x s i) = false) →
      Tr.everyTrace fn l = Tr.preorderGo l) ∧
    (∀ sib c rest i, isFalseVal (fn c sib i) = true →
      Tr.everyTraceGo fn sib (c :: rest) i = [c]) ∧
    (∀ sib c rest i, isFalseVal (fn c sib i) = false →
      Tr.everyTraceGo fn sib (c :: rest) i =
        c :: (Tr.everyTraceGo fn c.children c.children 0 ++
          Tr.everyTraceGo fn sib rest (i + 1))) := by
  refine ⟨?_, ?_, ?_, ?_, ?_⟩
  · intro hf
    exact eachTraceGo_no_false fn2 hf l 0
  · intro l1 c l2 hl h1 hc
    rw [hl]
    refine eachTraceGo_stop fn2 l1 c l2 0 ?_ (by simpa using hc)
    intro j x hj
    simpa using h1 j x hj
  · intro hf
    exact everyTraceGo_no_false fn hf l l 0
  · intro sib c rest i h
    exact everyTraceGo_cons_false fn sib c rest i h
  · intro sib c rest i h
    exact everyTraceGo_cons_go fn sib c rest i h

/-- Witness for C6: a visitor returning `false` on index 1 stops
`eachComponent` after the second child; an all-`undefined` visitor makes
`everyComponent` produce the full pre-order flattening; and a visitor
returning `false` at the top level stops that level at its head. -/
theorem claim_C6_witness :
    Tr.eachTrace (fun _ j => if j = 0 then JSVal.undefined else JSVal.bool false)
      [Tr.CompTree.leaf 1 "a", Tr.CompTree.leaf 2 "b", Tr.CompTree.leaf 3 "c"] =
      [Tr.CompTree.leaf 1 "a", Tr.CompTree.leaf 2 "b"] ∧
    Tr.everyTrace (fun _ _ _ => JSVal.undefined)
      [Tr.CompTree.container 1 "p" [Tr.CompTree.leaf 2 "x"], Tr.CompTree.leaf 3 "y"] =
      Tr.preorderGo
        [Tr.CompTree.container 1 "p" [Tr.CompTree.leaf 2 "x"], Tr.CompTree.leaf 3 "y"] ∧
    Tr.everyTraceGo (fun _ _ _ => JSVal.bool false)
      [Tr.CompTree.container 1 "p" [Tr.CompTree.leaf 2 "x"]]
      (Tr.CompTree.container 1 "p" [Tr.CompTree.leaf 2 "x"] :: []) 0 =
      [Tr.CompTree.container 1 "p" [Tr.CompTree.leaf 2 "x"]] := by
  refine ⟨?_, ?_, ?_⟩
  · refine (claim_C6 (fun _ _ _ => JSVal.undefined)
      (fun _ j => if j = 0 then JSVal.undefined else JSVal.bool false)
      [Tr.CompTree.leaf 1 "a", Tr.CompTree.leaf 2 "b", Tr.CompTree.leaf 3 "c"]).2.1
      [Tr.CompTree.leaf 1 "a"] (Tr.CompTree.leaf 2 "b") [Tr.CompTree.leaf 3 "c"]
      rfl ?_ rfl
    intro j x hj
    have hlt : j < 1 := by
      rcases j with _ | j
      · omega
      · simp at hj
    have hj0 : j = 0 := by omega
    subst hj0
    rfl
  · exact (claim_C6 (fun _ _ _ => JSVal.undefined) (fun _ _ => JSVal.undefined)
      [Tr.CompTree.container 1 "p" [Tr.CompTree.leaf 2 "x"], Tr.CompTree.leaf 3 "y"]).2.2.1
      (fun _ _ _ => rfl)
  · exact (claim_C6 (fun _ _ _ => JSVal.bool false) (fun _ _ => JSVal.undefined)
      []).2.2.2.1
      [Tr.CompTree.container 1 "p" [Tr.CompTree.leaf 2 "x"]]
      (Tr.CompTree.container 1 "p" [Tr.CompTree.leaf 2 "x"]) [] 0 rfl

/-- Counterexample to C7 as stated: a container with one child whose
`checkValidity` passes, checked with empty flags.  `valid &= ...` is a
bitwise operator, so `checkData` returns the JS number 1, not a boolean:
the accumulated validity is not returned "as a boolean". -/
theorem claim_C7_counterexample :
    (NC.checkData
        ⟨[⟨1, "a", "textfield", fun _ => true, .null, fun _ _ => true,
            fun _ _ => true, fun _ _ => true, fun _ _ => false, fun _ => false⟩],
          fun _ => true, fun _ _ => true, fun _ _ => true⟩
        (.num 0) ⟨false, false, false⟩).1 = JSVal.num 1 ∧
    (∀ b, (NC.checkData
        ⟨[⟨1, "a", "textfield", fun _ => true, .null, fun _ _ => true,
            fun _ _ => true, fun _ _ => true, fun _ _ => false, fun _ => false⟩],
          fun _ => true, fun _ _ => true, fun _ _ => true⟩
        (.num 0) ⟨false, false, false⟩).1 ≠ JSVal.bool b) := by
  constructor
  · rfl
  · intro b hb
    have h1 : (NC.checkData
        ⟨[⟨1, "a", "textfield", fun _ => true, .null, fun _ _ => true,
            fun _ _ => true, fun _ _ => true, fun _ _ => false, fun _ => false⟩],
          fun _ => true, fun _ _ => true, fun _ _ => true⟩
        (.num 0) ⟨false, false, false⟩).1 = JSVal.num 1 := rfl
    rw [h1] at hb
    exact JSVal.noConfusion hb

/-- Claim C7 (amended): `checkData` returns `undefined` with no effect
under `flags.noCheck`; otherwise it runs `calculateValue`,
`checkConditions` and — unless `noValidate` — `checkValidity` for every
direct child in order, fires the change notification exactly when the
accumulated `changed` is truthy (the update seed or some child's
`calculateValue` reported change), and returns the accumulated validity —
the boolean `true` when `noValidate` is set or there are no children,
and otherwise the JS number 1 or 0 (truthy exactly when every child's
`checkValidity` passed), since `&=` coerces to a number. -/
theorem claim_C7_amended (c : NC.Container) (data : JSVal) (flags : Flags) :
    (flags.noCheck = true → NC.checkData c data flags = (.undefined, [])) ∧
    (flags.noCheck = false →
      (NC.checkData c data flags).2 =
        cdChildEvents flags c.components ++
          (if NC.updateValue c { noUpdateEvent := true } ||
              c.components.any
                (fun comp => comp.calculateValueR data { noUpdateEvent := true })
            then [NC.CDEvent.trigger flags] else [])) ∧
    (flags.noCheck = false → flags.noValidate = true →
      (NC.checkData c data flags).1 = .bool true) ∧
    (flags.noCheck = false → c.components = [] →
      (NC.checkData c data flags).1 = .bool true) ∧
    (flags.noCheck = false → flags.noValidate = false → c.components ≠ [] →
      (NC.checkData c data flags).1 =
        .num (if c.components.all (fun comp => comp.checkValidityR data none)
          then 1 else 0)) := by
  refine ⟨?_, ?_, ?_, ?_, ?_⟩
  · intro h
    simp [NC.checkData, h]
  · intro h
    have hzo : zoVal (JSVal.bool (NC.updateValue c { noUpdateEvent := true })) := by
      cases hu : NC.updateValue c { noUpdateEvent := true } <;> simp [zoVal]
    have hrun : (NC.checkData c data flags).2 =
        (if truthy (NC.checkDataGo data flags c.components
              (.bool (NC.updateValue c { noUpdateEvent := true })) (.bool true) []).1
          then (NC.checkDataGo data flags c.components
              (.bool (NC.updateValue c { noUpdateEvent := true })) (.bool true) []).2.2 ++
            [NC.CDEvent.trigger flags]
          else (NC.checkDataGo data flags c.components
              (.bool (NC.updateValue c { noUpdateEvent := true })) (.bool true) []).2.2) := by
      simp [NC.checkData, h]
    rw [hrun, checkDataGo_events, checkDataGo_changed data flags _ _ _ _ hzo]
    by_cases hq : (NC.updateValue c { noUpdateEvent := true } ||
        c.components.any (fun comp => comp.calculateValueR data { noUpdateEvent := true }))
    · simp [truthy, hq]
    · simp only [truthy] at hq ⊢
      simp [hq]
  · intro h hnv
    have h1 : (NC.checkData c data flags).1 =
        (NC.checkDataGo data flags c.components
          (.bool (NC.updateValue c { noUpdateEvent := true })) (.bool true) []).2.1 := by
      simp [NC.checkData, h]
    rw [h1, checkDataGo_valid_noValidate data flags hnv]
  · intro h hc
    have h1 : (NC.checkData c data flags).1 =
        (NC.checkDataGo data flags c.components
          (.bool (NC.updateValue c { noUpdateEvent := true })) (.bool true) []).2.1 := by
      simp [NC.checkData, h]
    rw [h1, hc]
    rfl
  · intro h hnv hne
    have h1 : (NC.checkData c data flags).1 =
        (NC.checkDataGo data flags c.components
          (.bool (NC.updateValue c { noUpdateEvent := true })) (.bool true) []).2.1 := by
      simp [NC.checkData, h]
    rw [h1, checkDataGo_valid data flags hnv c.components _ (.bool true) [] (Or.inl rfl)]
    have hie : c.components.isEmpty = false := by
      cases hcc : c.components with
      | nil => exact absurd hcc hne
      | cons a b => rfl
    simp [hie, truthy]

/-- Witness for the amended C7: a `noCheck` run returns `undefined` with
no events, and a normal run over one passing child returns the number
given by the AND-accumulation. -/
theorem claim_C7_amended_witness :
    NC.checkData ⟨[], fun _ => true, fun _ _ => true, fun _ _ => true⟩ (.num 0)
        ⟨false, true, false⟩ = (.undefined, []) ∧
    (NC.checkData
        ⟨[⟨1, "a", "textfield", fun _ => true, .null, fun _ _ => true,
            fun _ _ => true, fun _ _ => true, fun _ _ => false, fun _ => false⟩],
          fun _ => true, fun _ _ => true, fun _ _ => true⟩
        (.num 0) ⟨false, false, false⟩).1 =
      JSVal.num (if ([⟨1, "a", "textfield", fun _ => true, .null, fun _ _ => true,
            fun _ _ => true, fun _ _ => true, fun _ _ => false, fun _ => false⟩] :
          List NC.Child).all (fun comp => comp.checkValidityR (.num 0) none)
        then 1 else 0) := by
  constructor
  · exact (claim_C7_amended ⟨[], fun _ => true, fun _ _ => true, fun _ _ => true⟩
      (.num 0) ⟨false, true, false⟩).1 rfl
  · exact (claim_C7_amended
      ⟨[⟨1, "a", "textfield", fun _ => true, .null, fun _ _ => true,
          fun _ _ => true, fun _ _ => true, fun _ _ => false, fun _ => false⟩],
        fun _ => true, fun _ _ => true, fun _ _ => true⟩
      (.num 0) ⟨false, false, false⟩).2.2.2.2 rfl rfl (by simp)

/-- Claim C10: during `setValue` on a truthy value, once the child at
some position takes the defaulting branch (not a button, not a nested
container, no matching entry in the value), the shared flags object is
mutated with `noValidate = true`: every subsequent sibling's recorded
`setValue` call receives flags with `noValidate` set, and the flags
object `setValue` returns to the caller still has `noValidate` set. -/
theorem claim_C10 (c : NC.Container) (v : JSVal) (fl : Flags) (hv : truthy v = true)
    (l1 : List NC.Child) (comp : NC.Child) (l2 : List NC.Child)
    (hc : c.components = l1 ++ comp :: l2)
    (hb : comp.type ≠ "button") (hn : comp.type ≠ "components")
    (hh : (truthy v && comp.hasValue v) = false) :
    (NC.setValue c v fl).2.1.noValidate = true ∧
    (∀ e ∈ (NC.setValue c v fl).2.2.drop (l1.length + 1), ∀ call,
      e.2 = some call → call.flags.noValidate = true) := by
  have hsv : NC.setValue c v fl = NC.setValueGo v c.components false (NC.getFlags fl) := by
    unfold NC.setValue
    rw [if_neg (by simp [hv])]
  rw [hsv, hc, setValueGo_append v l1 (comp :: l2) false (NC.getFlags fl)]
  have hcons : NC.setValueGo v (comp :: l2) (NC.setValueGo v l1 false (NC.getFlags fl)).1
      (NC.setValueGo v l1 false (NC.getFlags fl)).2.1 =
      ((NC.setValueGo v l2
          (NC.setNestedValue comp v (NC.setValueGo v l1 false (NC.getFlags fl)).2.1
            (NC.setValueGo v l1 false (NC.getFlags fl)).1).1
          (NC.setNestedValue comp v (NC.setValueGo v l1 false (NC.getFlags fl)).2.1
            (NC.setValueGo v l1 false (NC.getFlags fl)).1).2.1).1,
        (NC.setValueGo v l2
          (NC.setNestedValue comp v (NC.setValueGo v l1 false (NC.getFlags fl)).2.1
            (NC.setValueGo v l1 false (NC.getFlags fl)).1).1
          (NC.setNestedValue comp v (NC.setValueGo v l1 false (NC.getFlags fl)).2.1
            (NC.setValueGo v l1 false (NC.getFlags fl)).1).2.1).2.1,
        (comp.id, (NC.setNestedValue comp v (NC.setValueGo v l1 false (NC.getFlags fl)).2.1
            (NC.setValueGo v l1 false (NC.getFlags fl)).1).2.2) ::
          (NC.setValueGo v l2
            (NC.setNestedValue comp v (NC.setValueGo v l1 false (NC.getFlags fl)).2.1
              (NC.setValueGo v l1 false (NC.getFlags fl)).1).1
            (NC.setNestedValue comp v (NC.setValueGo v l1 false (NC.getFlags fl)).2.1
              (NC.setValueGo v l1 false (NC.getFlags fl)).1).2.1).2.2) := rfl
  rw [hcons]
  have hset : (NC.setNestedValue comp v (NC.setValueGo v l1 false (NC.getFlags fl)).2.1
      (NC.setValueGo v l1 false (NC.getFlags fl)).1).2.1.noValidate = true :=
    setNestedValue_default_sets comp v _ _ hb hn hh
  have hmono := setValueGo_flags_mono v l2
    (NC.setNestedValue comp v (NC.setValueGo v l1 false (NC.getFlags fl)).2.1
      (NC.setValueGo v l1 false (NC.getFlags fl)).1).1
    (NC.setNestedValue comp v (NC.setValueGo v l1 false (NC.getFlags fl)).2.1
      (NC.setValueGo v l1 false (NC.getFlags fl)).1).2.1 hset
  refine ⟨hmono.1, ?_⟩
  have hlen : (NC.setValueGo v l1 false (NC.getFlags fl)).2.2.length = l1.length :=
    setValueGo_entries_length v l1 false (NC.getFlags fl)
  have hdrop : ∀ (A : List (Nat × Option NC.SVCall)) (y : Nat × Option NC.SVCall)
      (t : List (Nat × Option NC.SVCall)), (A ++ y :: t).drop (A.length + 1) = t := by
    intro A y t
    have h1 : A ++ y :: t = (A ++ [y]) ++ t := by simp
    have h2 : (A ++ [y]).length = A.length + 1 := by simp
    rw [h1, ← h2, List.drop_left]
  intro e he call hcall
  rw [show l1.length = (NC.setValueGo v l1 false (NC.getFlags fl)).2.2.length from hlen.symm,
    hdrop] at he
  exact hmono.2 e he call hcall

/-- Witness for C10: children [leaf with a matching entry, leaf with no
matching entry, leaf with a matching entry] — after the middle child
defaults, the caller's flags object has `noValidate` set on return. -/
theorem claim_C10_witness :
    (NC.setValue
        ⟨[⟨1, "a", "textfield", fun _ => true, .null, fun _ _ => true,
            fun _ _ => true, fun _ _ => true, fun _ _ => false, fun _ => false⟩,
          ⟨2, "b", "textfield", fun _ => false, .null, fun _ _ => true,
            fun _ _ => true, fun _ _ => true, fun _ _ => false, fun _ => false⟩,
          ⟨3, "c", "textfield", fun _ => true, .null, fun _ _ => true,
            fun _ _ => true, fun _ _ => true, fun _ _ => false, fun _ => false⟩],
          fun _ => true, fun _ _ => true, fun _ _ => true⟩
        (.obj [("a", .num 1), ("c", .num 2)]) ⟨false, false, false⟩).2.1.noValidate
      = true := by
  exact (claim_C10
    ⟨[⟨1, "a", "textfield", fun _ => true, .null, fun _ _ => true,
        fun _ _ => true, fun _ _ => true, fun _ _ => false, fun _ => false⟩,
      ⟨2, "b", "textfield", fun _ => false, .null, fun _ _ => true,
        fun _ _ => true, fun _ _ => true, fun _ _ => false, fun _ => false⟩,
      ⟨3, "c", "textfield", fun _ => true, .null, fun _ _ => true,
        fun _ _ => true, fun _ _ => true, fun _ _ => false, fun _ => false⟩],
      fun _ => true, fun _ _ => true, fun _ _ => true⟩
    (.obj [("a", .num 1), ("c", .num 2)]) ⟨false, false, false⟩ rfl
    [⟨1, "a", "textfield", fun _ => true, .null, fun _ _ => true,
        fun _ _ => true, fun _ _ => true, fun _ _ => false, fun _ => false⟩]
    ⟨2, "b", "textfield", fun _ => false, .null, fun _ _ => true,
        fun _ _ => true, fun _ _ => true, fun _ _ => false, fun _ => false⟩
    [⟨3, "c", "textfield", fun _ => true, .null, fun _ _ => true,
        fun _ _ => true, fun _ _ => true, fun _ _ => false, fun _ => false⟩]
    rfl (by simp) (by simp) rfl).1

/-- Counterexample to C1 as stated: a container with a leaf child that
reports `changed = true` followed by a button child.  The button branch
of `setNestedValue` returns `false` outright, discarding the accumulator,
so `setValue` returns `false` although the first child's recorded call
returned `true` — the aggregate is not the OR of the children's results
and an earlier `changed = true` is not preserved past a button. -/
theorem claim_C1_counterexample :
    (NC.setValue
        ⟨[⟨1, "a", "textfield", fun _ => true, .null, fun _ _ => true,
            fun _ _ => true, fun _ _ => true, fun _ _ => false, fun _ => false⟩,
          ⟨2, "b", "button", fun _ => true, .null, fun _ _ => true,
            fun _ _ => true, fun _ _ => true, fun _ _ => false, fun _ => false⟩],
          fun _ => true, fun _ _ => true, fun _ _ => true⟩
        (.obj [("a", .num 1)]) ⟨false, false, false⟩).1 = false ∧
    ((NC.setValue
        ⟨[⟨1, "a", "textfield", fun _ => true, .null, fun _ _ => true,
            fun _ _ => true, fun _ _ => true, fun _ _ => false, fun _ => false⟩,
          ⟨2, "b", "button", fun _ => true, .null, fun _ _ => true,
            fun _ _ => true, fun _ _ => true, fun _ _ => false, fun _ => false⟩],
          fun _ => true, fun _ _ => true, fun _ _ => true⟩
        (.obj [("a", .num 1)]) ⟨false, false, false⟩).2.2.map
      (fun e => e.2.map (·.result))) = [some true, none] := by
  exact ⟨rfl, rfl⟩

/-- Claim C1 (amended): for a truthy value, `setValue` processes every
child in collection order, producing one record per child — no call
exactly for `"button"`-typed children, and `"components"`-typed children
receiving the same unsliced value object.  The aggregate `changed` is the
OR of the recorded results when no child is a button, and in general the
OR of the results recorded after the last button: a button resets the
accumulated `changed` to `false`, so an earlier child's `true` survives
only if no later child is a button. -/
theorem claim_C1_amended (c : NC.Container) (v : JSVal) (fl : Flags)
    (hv : truthy v = true) :
    List.Forall₂ (fun (comp : NC.Child) (e : Nat × Option NC.SVCall) =>
        e.1 = comp.id ∧ (e.2 = none ↔ comp.type = "button") ∧
        (comp.type = "components" → ∀ call, e.2 = some call → call.value = v))
      c.components (NC.setValue c v fl).2.2 ∧
    ((∀ e ∈ (NC.setValue c v fl).2.2, e.2 ≠ none) →
      (NC.setValue c v fl).1 =
        (NC.setValue c v fl).2.2.any (fun e => (e.2.map (·.result)).getD false)) ∧
    (∀ r1 r2,
      (NC.setValue c v fl).2.2.map (fun e => e.2.map (·.result)) = r1 ++ none :: r2 →
      (∀ e ∈ r2, e ≠ none) →
      (NC.setValue c v fl).1 = r2.any (fun e => e.getD false)) := by
  have hsv : NC.setValue c v fl = NC.setValueGo v c.components false (NC.getFlags fl) := by
    unfold NC.setValue
    rw [if_neg (by simp [hv])]
  refine ⟨?_, ?_, ?_⟩
  · rw [hsv]
    exact setValueGo_entries v c.components false (NC.getFlags fl)
  · intro hall
    rw [hsv] at hall ⊢
    rw [setValueGo_changed v c.components false (NC.getFlags fl)]
    rw [specChanged_no_none _ false ?_]
    · simp only [Bool.false_or]
      rw [list_any_map]
    · intro e he
      rcases List.mem_map.mp he with ⟨p, hp, hpe⟩
      intro hnone
      rcases p with ⟨pid, pc⟩
      cases pc with
      | none => exact hall ⟨pid, none⟩ hp rfl
      | some call => simp at hpe; rw [← hpe] at hnone; simp at hnone
  · intro r1 r2 hdec hall
    rw [hsv] at hdec ⊢
    rw [setValueGo_changed v c.components false (NC.getFlags fl), hdec]
    exact specChanged_after_none r1 r2 false hall

/-- Witness for the amended C1: children [leaf reporting false, button,
leaf reporting true] — the aggregate is the OR over the children after
the button, here `true`. -/
theorem claim_C1_amended_witness :
    (NC.setValue
        ⟨[⟨1, "a", "textfield", fun _ => true, .null, fun _ _ => false,
            fun _ _ => true, fun _ _ => true, fun _ _ => false, fun _ => false⟩,
          ⟨2, "b", "button", fun _ => true, .null, fun _ _ => true,
            fun _ _ => true, fun _ _ => true, fun _ _ => false, fun _ => false⟩,
          ⟨3, "c", "textfield", fun _ => true, .null, fun _ _ => true,
            fun _ _ => true, fun _ _ => true, fun _ _ => false, fun _ => false⟩],
          fun _ => true, fun _ _ => true, fun _ _ => true⟩
        (.obj [("a", .num 1), ("c", .num 2)]) ⟨false, false, false⟩).1 =
      List.any [some false, some true] (fun e => e.getD false) := by
  have h := (claim_C1_amended
    ⟨[⟨1, "a", "textfield", fun _ => true, .null, fun _ _ => false,
        fun _ _ => true, fun _ _ => true, fun _ _ => false, fun _ => false⟩,
      ⟨2, "b", "button", fun _ => true, .null, fun _ _ => true,
        fun _ _ => true, fun _ _ => true, fun _ _ => false, fun _ => false⟩,
      ⟨3, "c", "textfield", fun _ => true, .null, fun _ _ => true,
        fun _ _ => true, fun _ _ => true, fun _ _ => false, fun _ => false⟩],
      fun _ => true, fun _ _ => true, fun _ _ => true⟩
    (.obj [("a", .num 1), ("c", .num 2)]) ⟨false, false, false⟩ rfl).2.2
    [some false] [some true] rfl (by simp)
  exact h

/-- Claim C2: when the container's own condition evaluates to false on
the given data, `checkValidity` clears the custom validity message and
returns `true` with no child's `checkValidity` invoked; otherwise it
returns the AND of the container's own base validity and every child's
result, every child being invoked (in order). -/
theorem claim_C2 (c : NC.Container) (data : JSVal) (dirty : Bool) :
    (c.condition data = false →
      NC.checkValidity c data dirty = (true, true, [])) ∧
    (c.condition data = true →
      NC.checkValidity c data dirty =
        (c.ownCheckValidity data dirty &&
            c.components.all (fun comp => comp.checkValidityR data (some dirty)),
          false,
          c.components.map (·.id))) := by
  constructor
  · intro h
    simp [NC.checkValidity, h]
  · intro h
    simp [NC.checkValidity, h, foldl_and_trace]

/-- Witness for C2 at concrete inputs: one container whose condition
fails (children present, none invoked) and one whose condition holds
(both children invoked, result the AND). -/
theorem claim_C2_witness :
    NC.checkValidity
        ⟨[⟨1, "a", "textfield", fun _ => true, .null, fun _ _ => true,
            fun _ _ => false, fun _ _ => false, fun _ _ => false, fun _ => false⟩],
          fun _ => false, fun _ _ => true, fun _ _ => true⟩ (.num 1) true
      = (true, true, []) ∧
    NC.checkValidity
        ⟨[⟨1, "a", "textfield", fun _ => true, .null, fun _ _ => true,
            fun _ _ => false, fun _ _ => false, fun _ _ => false, fun _ => false⟩,
          ⟨2, "b", "textfield", fun _ => true, .null, fun _ _ => true,
            fun _ _ => true, fun _ _ => true, fun _ _ => false, fun _ => false⟩],
          fun _ => true, fun _ _ => true, fun _ _ => true⟩ (.num 1) true
      = (false, false, [1, 2]) := by
  constructor
  · exact (claim_C2 _ (.num 1) true).1 rfl
  · have h := (claim_C2
      ⟨[⟨1, "a", "textfield", fun _ => true, .null, fun _ _ => true,
          fun _ _ => false, fun _ _ => false, fun _ _ => false, fun _ => false⟩,
        ⟨2, "b", "textfield", fun _ => true, .null, fun _ _ => true,
          fun _ _ => true, fun _ _ => true, fun _ _ => false, fun _ => false⟩],
        fun _ => true, fun _ _ => true, fun _ _ => true⟩ (.num 1) true).2 rfl
    simpa using h

/-- Claim C4: `isValid` evaluates the container's own base validity and
then every child's `isValid` — every child invoked regardless of earlier
results, the invocation trace being exactly the child list in order — and
returns the AND of all of them; `checkValidity` does the same when the
container's condition applies. -/
theorem claim_C4 (c : NC.Container) (data : JSVal) (dirty : Bool) :
    NC.isValid c data dirty =
      (c.ownIsValid data dirty &&
          c.components.all (fun comp => comp.isValidR data dirty),
        c.components.map (·.id)) ∧
    (c.condition data = true →
      NC.checkValidity c data dirty =
        (c.ownCheckValidity data dirty &&
            c.components.all (fun comp => comp.checkValidityR data (some dirty)),
          false,
          c.components.map (·.id))) := by
  constructor
  · simp [NC.isValid, foldl_and_trace]
  · intro h
    simp [NC.checkValidity, h, foldl_and_trace]

/-- Witness for C4: three children where the first fails — all three are
still invoked and the result is `false`; the `checkValidity` half at the
same container with a passing condition. -/
theorem claim_C4_witness :
    NC.isValid
        ⟨[⟨1, "a", "textfield", fun _ => true, .null, fun _ _ => true,
            fun _ _ => false, fun _ _ => false, fun _ _ => false, fun _ => false⟩,
          ⟨2, "b", "textfield", fun _ => true, .null, fun _ _ => true,
            fun _ _ => true, fun _ _ => true, fun _ _ => false, fun _ => false⟩,
          ⟨3, "c", "textfield", fun _ => true, .null, fun _ _ => true,
            fun _ _ => true, fun _ _ => true, fun _ _ => false, fun _ => false⟩],
          fun _ => true, fun _ _ => true, fun _ _ => true⟩ (.num 1) true
      = (false, [1, 2, 3]) ∧
    NC.checkValidity
        ⟨[⟨1, "a", "textfield", fun _ => true, .null, fun _ _ => true,
            fun _ _ => false, fun _ _ => false, fun _ _ => false, fun _ => false⟩,
          ⟨2, "b", "textfield", fun _ => true, .null, fun _ _ => true,
            fun _ _ => true, fun _ _ => true, fun _ _ => false, fun _ => false⟩,
          ⟨3, "c", "textfield", fun _ => true, .null, fun _ _ => true,
            fun _ _ => true, fun _ _ => true, fun _ _ => false, fun _ => false⟩],
          fun _ => true, fun _ _ => true, fun _ _ => true⟩ (.num 1) true
      = (false, false, [1, 2, 3]) := by
  have h := claim_C4
    ⟨[⟨1, "a", "textfield", fun _ => true, .null, fun _ _ => true,
        fun _ _ => false, fun _ _ => false, fun _ _ => false, fun _ => false⟩,
      ⟨2, "b", "textfield", fun _ => true, .null, fun _ _ => true,
        fun _ _ => true, fun _ _ => true, fun _ _ => false, fun _ => false⟩,
      ⟨3, "c", "textfield", fun _ => true, .null, fun _ _ => true,
        fun _ _ => true, fun _ _ => true, fun _ _ => false, fun _ => false⟩],
      fun _ => true, fun _ _ => true, fun _ _ => true⟩ (.num 1) true
  refine ⟨?_, ?_⟩
  · have h1 := h.1
    simpa using h1
  · have h2 := h.2 rfl
    simpa using h2

/-- Claim C9: `setHidden` applies exactly the first matching rule of the
priority order — delegation (`hideComponents` with the current hidden set)
exactly when the child is a container with a non-empty child collection;
forced invisibility exactly when it is not and either the schema declares
it hidden, its key is in the inherited hidden set, or its conditional
visibility check fails; and no change exactly when none of these hold. -/
theorem claim_C9 (hidden : List String) (c : Vis.VChild) :
    (Vis.setHidden hidden c = Vis.HOutcome.delegated hidden ↔ c.childCount ≠ 0) ∧
    (Vis.setHidden hidden c = Vis.HOutcome.forcedInvisible ↔
      (c.childCount = 0 ∧
        (c.schemaHidden = true ∨ hidden.contains c.key = true ∨ c.condVisible = false))) ∧
    (Vis.setHidden hidden c = Vis.HOutcome.unchanged ↔
      (c.childCount = 0 ∧ c.schemaHidden = false ∧
        hidden.contains c.key = false ∧ c.condVisible = true)) := by
  unfold Vis.setHidden
  split_ifs with h1 h2 h3 h4 <;> simp_all

/-- `findIdx?` finds the first match: on `l1 ++ x :: l2` with no match in
`l1` and `x` matching, it yields `l1.length`. -/
theorem findIdx?_first_match {α : Type} (p : α → Bool) (l1 : List α) (x : α) (l2 : List α)
    (h1 : ∀ e ∈ l1, ¬ p e) (hx : p x = true) :
    (l1 ++ x :: l2).findIdx? p = some l1.length := by
  induction l1 with
  | nil => simp [List.findIdx?_cons, hx]
  | cons a as ih =>
    have ha : p a = false := by simpa using h1 a (by simp)
    have ih' := ih (fun e he => h1 e (by simp [he]))
    simp [List.findIdx?_cons, ha, ih']

/-- Whatever the insertion outcome, `createComponent` returns the
factory-built instance itself. -/
theorem createComponent_fst (factory : AC.BSchema → AC.BInst) (components : List AC.BInst)
    (schema : AC.BSchema) (before : Option AC.BInst) :
    (AC.createComponent factory components schema before).1 = factory schema := by
  unfold AC.createComponent
  by_cases hi : schema.internal
  · simp [hi]
  · cases before with
    | none => simp [hi]
    | some b =>
      cases h : components.findIdx? (fun e => e.id == b.id) <;> simp [hi, h]

/-- Claim C3 (amended): the visibility cascade `setHidden` runs on the
new child only when attachment succeeds; when `noAdd` is set the function
returns right after creation with no attachment events at all, and when
the child has no element it logs the warning and returns without
attaching and without `setHidden` — in every outcome the created instance
is returned and the collection update of `createComponent` stands. -/
theorem claim_C3_amended (factory : AC.BSchema → AC.BInst) (components : List AC.BInst)
    (schema : AC.BSchema) (before : Option AC.BInst) (noAdd : Bool) :
    (noAdd = true →
      (AC.addComponent factory components schema before noAdd).2.2 = []) ∧
    (noAdd = false → (factory schema).hasElement = false →
      (AC.addComponent factory components schema before noAdd).2.2 =
        [AC.AddEvent.warned schema.key]) ∧
    (noAdd = false → (factory schema).hasElement = true →
      AC.AddEvent.setHiddenApplied (factory schema).id ∈
        (AC.addComponent factory components schema before noAdd).2.2) ∧
    (AC.addComponent factory components schema before noAdd).1 = factory schema ∧
    (AC.addComponent factory components schema before noAdd).2.1 =
      (AC.createComponent factory components schema before).2 := by
  refine ⟨?_, ?_, ?_, ?_, ?_⟩
  · intro h; simp [AC.addComponent, h]
  · intro h he; simp [AC.addComponent, createComponent_fst, h, he]
  · intro h he
    cases before <;> simp [AC.addComponent, createComponent_fst, h, he]
  · by_cases h : noAdd <;> by_cases he : (factory schema).hasElement <;>
      cases before <;> simp [AC.addComponent, createComponent_fst, h, he]
  · by_cases h : noAdd <;> by_cases he : (factory schema).hasElement <;>
      cases before <;> simp [AC.addComponent, createComponent_fst, h, he]

/-- Counterexample to C3 as stated: with `skipAttach` (`noAdd`) set, the
returned event trace is empty — `setHidden` is not applied to the newly
created child in that outcome. -/
theorem claim_C3_counterexample :
    (AC.addComponent (fun _ => ⟨7, true⟩) [] ⟨"a", false⟩ none true).2.2 = [] ∧
    (∀ i, AC.AddEvent.setHiddenApplied i ∉
      (AC.addComponent (fun _ => ⟨7, true⟩) [] ⟨"a", false⟩ none true).2.2) := by
  constructor
  · rfl
  · intro i
    simp [AC.addComponent, AC.createComponent]

/-- Witness for the amended C3 at concrete inputs: the `noAdd` outcome
(no events), the missing-element outcome (warning only), and the success
outcome (`setHidden` applied). -/
theorem claim_C3_amended_witness :
    (AC.addComponent (fun _ => ⟨7, true⟩) [] ⟨"a", false⟩ none true).2.2 = [] ∧
    (AC.addComponent (fun _ => ⟨7, false⟩) [] ⟨"a", false⟩ none false).2.2 =
      [AC.AddEvent.warned "a"] ∧
    AC.AddEvent.setHiddenApplied 7 ∈
      (AC.addComponent (fun _ => ⟨7, true⟩) [] ⟨"a", false⟩ none false).2.2 := by
  refine ⟨?_, ?_, ?_⟩
  · exact (claim_C3_amended (fun _ => ⟨7, true⟩) [] ⟨"a", false⟩ none true).1 rfl
  · exact (claim_C3_amended (fun _ => ⟨7, false⟩) [] ⟨"a", false⟩ none false).2.1 rfl rfl
  · exact (claim_C3_amended (fun _ => ⟨7, true⟩) [] ⟨"a", false⟩ none false).2.2.1 rfl rfl

/-- Claim C8: `createComponent` leaves the collection unchanged when the
schema is `internal`; otherwise it extends it by exactly the new
instance — appended when no `beforeRef` is given or its `id` matches no
entry, and inserted immediately before the first entry whose `id` equals
`beforeRef`'s `id` when one exists. -/
theorem claim_C8 (factory : AC.BSchema → AC.BInst) (components : List AC.BInst)
    (schema : AC.BSchema) (before : Option AC.BInst) :
    (schema.internal = true →
      (AC.createComponent factory components schema before).2 = components) ∧
    (schema.internal = false → before = none →
      (AC.createComponent factory components schema before).2 =
        components ++ [factory schema]) ∧
    (schema.internal = false → ∀ b, before = some b →
      (∀ e ∈ components, e.id ≠ b.id) →
      (AC.createComponent factory components schema before).2 =
        components ++ [factory schema]) ∧
    (schema.internal = false → ∀ b l1 x l2, before = some b →
      components = l1 ++ x :: l2 → (∀ e ∈ l1, e.id ≠ b.id) → x.id = b.id →
      (AC.createComponent factory components schema before).2 =
        l1 ++ factory schema :: x :: l2) := by
  refine ⟨?_, ?_, ?_, ?_⟩
  · intro h; simp [AC.createComponent, h]
  · intro h hb; subst hb; simp [AC.createComponent, h]
  · intro h b hb hno
    subst hb
    have hf : components.findIdx? (fun e => e.id == b.id) = none := by
      rw [List.findIdx?_eq_none_iff]
      intro e he
      simpa using hno e he
    simp [AC.createComponent, h, hf]
  · intro h b l1 x l2 hb hcomp hno hx
    subst hb
    subst hcomp
    have hf : (l1 ++ x :: l2).findIdx? (fun e => e.id == b.id) = some l1.length := by
      refine findIdx?_first_match _ _ _ _ (fun e he => by simpa using hno e he) ?_
      simpa using hx
    have ht : (l1 ++ x :: l2).take l1.length = l1 := List.take_left l1 (x :: l2)
    have hd : (l1 ++ x :: l2).drop l1.length = x :: l2 := List.drop_left l1 (x :: l2)
    simp [AC.createComponent, h, hf, ht, hd]

/-- Witness for C8 at concrete inputs: an `internal` schema leaves the
collection alone; no `beforeRef` appends; a `beforeRef` whose id is
absent appends; a `beforeRef` matching the second entry inserts the new
instance immediately before it. -/
theorem claim_C8_witness :
    (AC.createComponent (fun _ => ⟨9, true⟩) [⟨1, true⟩] ⟨"a", true⟩ none).2 =
      [⟨1, true⟩] ∧
    (AC.createComponent (fun _ => ⟨9, true⟩) [⟨1, true⟩] ⟨"a", false⟩ none).2 =
      [⟨1, true⟩, ⟨9, true⟩] ∧
    (AC.createComponent (fun _ => ⟨9, true⟩) [⟨1, true⟩] ⟨"a", false⟩ (some ⟨5, true⟩)).2 =
      [⟨1, true⟩, ⟨9, true⟩] ∧
    (AC.createComponent (fun _ => ⟨9, true⟩) [⟨1, true⟩, ⟨2, true⟩] ⟨"a", false⟩
        (some ⟨2, false⟩)).2 =
      [⟨1, true⟩, ⟨9, true⟩, ⟨2, true⟩] := by
  refine ⟨?_, ?_, ?_, ?_⟩
  · exact (claim_C8 (fun _ => ⟨9, true⟩) [⟨1, true⟩] ⟨"a", true⟩ none).1 rfl
  · exact (claim_C8 (fun _ => ⟨9, true⟩) [⟨1, true⟩] ⟨"a", false⟩ none).2.1 rfl rfl
  · exact (claim_C8 (fun _ => ⟨9, true⟩) [⟨1, true⟩] ⟨"a", false⟩ (some ⟨5, true⟩)).2.2.1
      rfl ⟨5, true⟩ rfl (by decide)
  · exact (claim_C8 (fun _ => ⟨9, true⟩) [⟨1, true⟩, ⟨2, true⟩] ⟨"a", false⟩
      (some ⟨2, false⟩)).2.2.2 rfl ⟨2, false⟩ [⟨1, true⟩] ⟨2, true⟩ [] rfl rfl
      (by decide) rfl
